import Mathlib

/-!
Verification of the bernard-browser-use QA automation repository.

Shallow embedding: the Python functions under scrutiny are translated into
executable Lean definitions over `List Char` (Python `str`) and explicit
state (label lists, an abstract read-only file system, abstract HTTP
responses).  Effects (HTTP PATCH requests, subprocess launches) are made
explicit as returned values.  All definitions are computable so concrete
inputs evaluate by `decide`/`rfl`.
-/

namespace Bernard

/-- Python's ASCII whitespace set, as used by `str.strip()` and by the
regex class `\s` on the ASCII range: space, tab, newline, carriage
return, form feed, vertical tab. -/
def isPySpace (c : Char) : Bool :=
  c = ' ' || c = '\t' || c = '\n' || c = '\x0d' || c = '\x0c' || c = '\x0b'

/-- Python `str.strip(chars)`: drop leading and trailing characters
satisfying `p`. -/
def stripEnds (p : Char → Bool) (l : List Char) : List Char :=
  ((l.dropWhile p).reverse.dropWhile p).reverse

/-- Python `str.strip()`: drop leading and trailing whitespace. -/
def pyStrip (l : List Char) : List Char := stripEnds isPySpace l

/-- Python `needle in hay` substring test (`True` iff `needle` occurs
contiguously in `hay`). -/
def containsSub (hay needle : List Char) : Bool :=
  needle.isPrefixOf hay ||
    match hay with
    | [] => false
    | _ :: t => containsSub t needle

/-- Python `hay.split(needle, 1)[1]`: the part of `hay` after the first
occurrence of `needle` (returns `[]` when `needle` does not occur; the
callers below only use it after a containment check). -/
def splitAfter (hay needle : List Char) : List Char :=
  if needle.isPrefixOf hay then hay.drop needle.length
  else match hay with
    | [] => []
    | _ :: t => splitAfter t needle

-- ---------------------------------------------------------------------
-- Label constants (src/run_bernard_qa_agent.py, src/test_issues.py,
-- src/bernard/github_interactions.py)
-- ---------------------------------------------------------------------

def aiTestedLabel : List Char := "ai-tested".toList
def testingInProgressLabel : List Char := "testing-in-progress".toList
def changesRequestedLabel : List Char := "changes-requested".toList
def needsTestLabel : List Char := "needs-test".toList

-- ---------------------------------------------------------------------
-- src/run_bernard_qa_agent.py, update_labels (lines 119-136).
-- The GET/PATCH pair is modelled as a pure transformation of the label
-- list fetched by the GET: the PATCH body is the returned list.
-- ---------------------------------------------------------------------

/-- `update_labels` of the QA Agent Runner (src/run_bernard_qa_agent.py):
remove every occurrence of `testing-in-progress` and `changes-requested`,
then append `ai-tested` if absent.  The result is the label list sent in
the PATCH request. -/
def update_labels (labels : List (List Char)) : List (List Char) :=
  let ls := labels.filter
    (fun l => !(l = testingInProgressLabel || l = changesRequestedLabel))
  if aiTestedLabel ∈ ls then ls else ls ++ [aiTestedLabel]

/-- `update_issue_labels` of the GitHub API client
(src/bernard/github_interactions.py): remove every occurrence of
`needs-test`, then append `ai-tested` if absent. -/
def update_issue_labels (labels : List (List Char)) : List (List Char) :=
  let ls := labels.filter (fun l => !(l = needsTestLabel))
  if aiTestedLabel ∈ ls then ls else ls ++ [aiTestedLabel]

/-- The label transformation as the specification sentence words it
(claim C1): remove every occurrence of `needs-test`,
`changes-requested` and `testing-in-progress`, then add `ai-tested`
if absent.  Written from the spec, to be compared with the functions
above. -/
def specClaimedLabelUpdate (labels : List (List Char)) : List (List Char) :=
  let ls := labels.filter
    (fun l => !(l = needsTestLabel || l = changesRequestedLabel ||
                l = testingInProgressLabel))
  if aiTestedLabel ∈ ls then ls else ls ++ [aiTestedLabel]

-- ---------------------------------------------------------------------
-- src/test_issues.py, add_testing_in_progress_label (lines 154-170).
-- `some newLabels` models "a PATCH request carrying newLabels was
-- issued"; `none` models "no PATCH request was issued".
-- ---------------------------------------------------------------------

/-- `add_testing_in_progress_label` (src/test_issues.py): fetch the
current labels; if `testing-in-progress` is absent, append it and PATCH
the new list, otherwise do nothing. -/
def add_testing_in_progress_label (labels : List (List Char)) :
    Option (List (List Char)) :=
  if testingInProgressLabel ∈ labels then none
  else some (labels ++ [testingInProgressLabel])

-- ---------------------------------------------------------------------
-- Release lookup/creation (src/run_bernard_qa_agent.py lines 55-75 and
-- src/bernard/video.py lines 14-49).  The two HTTP responses consulted
-- by either function are modelled explicitly; `requests`'
-- `raise_for_status` raises exactly when the status code is >= 400.
-- ---------------------------------------------------------------------

/-- An HTTP response as consumed by the release helpers: a status code
and the two JSON fields the code reads. -/
structure HttpResp where
  status : Nat
  id : List Char
  uploadUrl : List Char
deriving DecidableEq, Repr

/-- The two GitHub endpoints the release helpers talk to:
`GET /releases/tags/video-uploads` and `POST /releases`. -/
structure ReleaseWorld where
  getResp : HttpResp
  createResp : HttpResp
deriving DecidableEq, Repr

/-- `get_or_create_release` of the QA Agent Runner
(src/run_bernard_qa_agent.py): on HTTP 200 from the GET, return that
release's id and upload URL; otherwise POST a new release and
`raise_for_status` — an `Except.error` carrying the status models the
raised `requests.exceptions.HTTPError`. -/
def get_or_create_release (w : ReleaseWorld) :
    Except Nat (List Char × List Char) :=
  if w.getResp.status = 200 then .ok (w.getResp.id, w.getResp.uploadUrl)
  else if 400 ≤ w.createResp.status then .error w.createResp.status
  else .ok (w.createResp.id, w.createResp.uploadUrl)

/-- `get_or_create_github_release` of the Video Pipeline module
(src/bernard/video.py): same GET/POST flow, but the creation
`HTTPError` is caught, logged, and converted to `None`. -/
def get_or_create_github_release (w : ReleaseWorld) :
    Option (List Char × List Char) :=
  if w.getResp.status = 200 then some (w.getResp.id, w.getResp.uploadUrl)
  else if 400 ≤ w.createResp.status then none
  else some (w.createResp.id, w.createResp.uploadUrl)

-- ---------------------------------------------------------------------
-- Claim C1
-- ---------------------------------------------------------------------

/-- C1 (counterexample): at the old label set `["needs-test"]` the QA
Agent Runner's `update_labels` keeps `needs-test` and appends
`ai-tested`, whereas the claimed transformation (remove all three of
`needs-test`/`changes-requested`/`testing-in-progress`, add `ai-tested`)
yields `["ai-tested"]`.  The two disagree, so the claim as stated is
false of the code. -/
theorem update_labels_keeps_needs_test_cex :
    update_labels [needsTestLabel] = [needsTestLabel, aiTestedLabel] ∧
    specClaimedLabelUpdate [needsTestLabel] = [aiTestedLabel] ∧
    update_labels [needsTestLabel] ≠ specClaimedLabelUpdate [needsTestLabel] := by
  refine ⟨by decide, by decide, by decide⟩

/-- C1 (amended): the Runner's issue-label update removes every
occurrence of `testing-in-progress` and `changes-requested`, ensures
`ai-tested` is present, preserves the multiplicity of `needs-test`
(which it does **not** remove), and leaves the multiplicity of every
other label unchanged. -/
theorem update_labels_spec (labels : List (List Char)) :
    testingInProgressLabel ∉ update_labels labels ∧
    changesRequestedLabel ∉ update_labels labels ∧
    aiTestedLabel ∈ update_labels labels ∧
    (update_labels labels).count needsTestLabel = labels.count needsTestLabel ∧
    ∀ l, l ≠ testingInProgressLabel → l ≠ changesRequestedLabel →
      l ≠ aiTestedLabel → (update_labels labels).count l = labels.count l := by
  unfold update_labels
  set p : List Char → Bool :=
    fun l => !(l = testingInProgressLabel || l = changesRequestedLabel) with hp
  have hmemfil : ∀ l, l ∈ labels.filter p → p l = true := by
    intro l hl; exact (List.mem_filter.mp hl).2
  have hcount : ∀ l, p l = true →
      (labels.filter p).count l = labels.count l := by
    intro l hl
    rw [List.count_filter hl]
  have htip : testingInProgressLabel ∉ labels.filter p := by
    intro h; have := hmemfil _ h; simp [hp] at this
  have hcr : changesRequestedLabel ∉ labels.filter p := by
    intro h; have := hmemfil _ h; simp [hp] at this
  by_cases hai : aiTestedLabel ∈ labels.filter p
  · simp only [if_pos hai]
    refine ⟨htip, hcr, hai, ?_, ?_⟩
    · exact hcount _ (by decide)
    · intro l h1 h2 _; exact hcount _ (by simp [hp, h1, h2])
  · simp only [if_neg hai]
    refine ⟨?_, ?_, ?_, ?_, ?_⟩
    · simp only [List.mem_append, List.mem_singleton]
      rintro (h | h)
      · exact htip h
      · exact absurd h (by decide)
    · simp only [List.mem_append, List.mem_singleton]
      rintro (h | h)
      · exact hcr h
      · exact absurd h (by decide)
    · exact List.mem_append_right _ (List.mem_singleton_self _)
    · rw [List.count_append, hcount _ (by decide)]
      simp [List.count_singleton,
        show aiTestedLabel ≠ needsTestLabel by decide]
    · intro l h1 h2 h3
      rw [List.count_append, hcount _ (by simp [hp, h1, h2])]
      simp [List.count_singleton, h3]

/-- C1 (witness): the amended theorem applied at the concrete old label
set `["needs-test"]` and the concrete frame label `"bug"`. -/
theorem update_labels_spec_witness :
    (update_labels [needsTestLabel, "bug".toList]).count "bug".toList =
      List.count "bug".toList [needsTestLabel, "bug".toList] :=
  (update_labels_spec [needsTestLabel, "bug".toList]).2.2.2.2 "bug".toList
    (by decide) (by decide) (by decide)

-- ---------------------------------------------------------------------
-- Claim C2
-- ---------------------------------------------------------------------

/-- C2 (counterexample): a world where the tag lookup returns 404 and
the creation POST returns 422.  The Video Pipeline variant
`get_or_create_github_release` (src/bernard/video.py, the function the
claim cites) catches the creation HTTP error and returns the absent
sentinel `none` instead of propagating it, contradicting the claim. -/
theorem get_or_create_github_release_swallows_cex :
    get_or_create_github_release
        ⟨⟨404, [], []⟩, ⟨422, "9".toList, "u".toList⟩⟩ = none ∧
    (404 : Nat) ≠ 200 ∧ (400 : Nat) ≤ 422 := by
  refine ⟨by decide, by decide, by decide⟩

/-- C2 (amended): on HTTP 200 from the GET both variants return the
fetched release's id and upload URL; when the GET misses and the
creation POST fails (status ≥ 400), the Runner-internal
`get_or_create_release` (src/run_bernard_qa_agent.py) raises the HTTP
error to its caller, while the Video Pipeline's
`get_or_create_github_release` (src/bernard/video.py) catches it and
returns `none`; when the creation POST succeeds both return the new
release's id and upload URL. -/
theorem get_or_create_release_error_spec (w : ReleaseWorld) :
    (w.getResp.status = 200 →
      get_or_create_release w = .ok (w.getResp.id, w.getResp.uploadUrl) ∧
      get_or_create_github_release w = some (w.getResp.id, w.getResp.uploadUrl)) ∧
    (w.getResp.status ≠ 200 → 400 ≤ w.createResp.status →
      get_or_create_release w = .error w.createResp.status ∧
      get_or_create_github_release w = none) ∧
    (w.getResp.status ≠ 200 → w.createResp.status < 400 →
      get_or_create_release w = .ok (w.createResp.id, w.createResp.uploadUrl) ∧
      get_or_create_github_release w = some (w.createResp.id, w.createResp.uploadUrl)) := by
  refine ⟨?_, ?_, ?_⟩
  · intro h
    simp [get_or_create_release, get_or_create_github_release, h]
  · intro h h4
    simp [get_or_create_release, get_or_create_github_release, h, h4]
  · intro h h4
    simp [get_or_create_release, get_or_create_github_release, h,
      Nat.not_le.mpr h4]

/-- C2 (witness): the amended theorem applied at a concrete world where
the GET misses (404) and the creation POST fails (422). -/
theorem get_or_create_release_error_spec_witness :
    get_or_create_release ⟨⟨404, [], []⟩, ⟨422, "9".toList, "u".toList⟩⟩ =
      .error 422 ∧
    get_or_create_github_release
      ⟨⟨404, [], []⟩, ⟨422, "9".toList, "u".toList⟩⟩ = none :=
  (get_or_create_release_error_spec
    ⟨⟨404, [], []⟩, ⟨422, "9".toList, "u".toList⟩⟩).2.1 (by decide) (by decide)

-- ---------------------------------------------------------------------
-- Claim C10
-- ---------------------------------------------------------------------

/-- C10: `add_testing_in_progress_label` is idempotent and
frame-preserving: when `testing-in-progress` is already present no
PATCH is issued (`none`) and the label set is untouched; otherwise the
PATCHed set is exactly the old set with `testing-in-progress` appended
once, every other label's multiplicity preserved, and a second
application issues no PATCH. -/
theorem add_testing_in_progress_label_spec (labels : List (List Char)) :
    (testingInProgressLabel ∈ labels →
      add_testing_in_progress_label labels = none) ∧
    (testingInProgressLabel ∉ labels →
      ∃ res, add_testing_in_progress_label labels = some res ∧
        res = labels ++ [testingInProgressLabel] ∧
        res.count testingInProgressLabel =
          labels.count testingInProgressLabel + 1 ∧
        (∀ l, l ≠ testingInProgressLabel → res.count l = labels.count l) ∧
        add_testing_in_progress_label res = none) := by
  constructor
  · intro h; simp [add_testing_in_progress_label, h]
  · intro h
    refine ⟨labels ++ [testingInProgressLabel],
      by simp [add_testing_in_progress_label, h], rfl, ?_, ?_, ?_⟩
    · simp [List.count_append, List.count_singleton]
    · intro l hl
      simp [List.count_append, List.count_singleton, hl]
    · simp [add_testing_in_progress_label]

/-- C10 (witness): the theorem applied at the concrete label set
`["bug"]`, where the label is absent and a PATCH appending it is
issued. -/
theorem add_testing_in_progress_label_spec_witness :
    add_testing_in_progress_label ["bug".toList] =
      some ["bug".toList, testingInProgressLabel] := by
  obtain ⟨res, h1, h2, -⟩ :=
    (add_testing_in_progress_label_spec ["bug".toList]).2 (by decide)
  rw [h1, h2]; rfl

-- ---------------------------------------------------------------------
-- src/context_loader.py, load_context_from_labels (lines 20-35).
-- The file system is an abstract read-only map from file name to
-- content (`none` = file does not exist).
-- ---------------------------------------------------------------------

/-- File name `<label>.txt` looked up for each label. -/
def txtFile (label : List Char) : List Char := label ++ ".txt".toList

def airEmployeeFile : List Char := "air-employee.txt".toList

def label10941095 : List Char := "1094/1095".toList

/-- Python `sep.join(parts)`. -/
def joinSep (sep : List Char) : List (List Char) → List Char
  | [] => []
  | [x] => x
  | x :: y :: rest => x ++ sep ++ joinSep sep (y :: rest)

/-- The `context_parts` list accumulated by `load_context_from_labels`:
for each label, the content of `<label>.txt` if it exists, then — when
the label is literally `1094/1095` — the content of `air-employee.txt`
if it exists. -/
def contextParts (fs : List Char → Option (List Char)) :
    List (List Char) → List (List Char)
  | [] => []
  | l :: rest =>
    (match fs (txtFile l) with | some c => [c] | none => []) ++
    (if l = label10941095 then
      match fs airEmployeeFile with | some c => [c] | none => []
     else []) ++ contextParts fs rest

/-- `load_context_from_labels` (src/context_loader.py): join the
accumulated context parts with a blank line. -/
def load_context_from_labels (labels : List (List Char))
    (fs : List Char → Option (List Char)) : List Char :=
  joinSep "\n\n".toList (contextParts fs labels)

/-- `containsSub` decides contiguous-sublist (substring) occurrence. -/
theorem containsSub_iff_occurs (hay needle : List Char) :
    containsSub hay needle = true ↔ needle <:+: hay := by
  induction hay with
  | nil =>
    rw [containsSub]
    simp [List.isPrefixOf_iff_prefix]
  | cons a t ih =>
    rw [containsSub]
    simp only [Bool.or_eq_true, List.isPrefixOf_iff_prefix, ih,
      List.infix_cons_iff]

theorem joinSep_cons_cons (sep x y : List Char) (rest : List (List Char)) :
    joinSep sep (x :: y :: rest) = x ++ sep ++ joinSep sep (y :: rest) := rfl

/-- Every accumulated part is a substring of the joined result. -/
theorem joinSep_occurs_of_mem (sep : List Char) (parts : List (List Char))
    (x : List Char) (hx : x ∈ parts) : x <:+: joinSep sep parts := by
  induction parts with
  | nil => cases hx
  | cons p ps ih =>
    cases ps with
    | nil =>
      rcases hx with _ | ⟨_, h⟩
      · exact List.infix_refl _
      · cases h
    | cons q qs =>
      rw [joinSep_cons_cons, List.append_assoc]
      rcases hx with _ | ⟨_, hx'⟩
      · exact (List.prefix_append x (sep ++ joinSep sep (q :: qs))).isInfix
      · exact (ih hx').trans
          ((List.suffix_append sep (joinSep sep (q :: qs))).trans
            (List.suffix_append p (sep ++ joinSep sep (q :: qs)))).isInfix

/-- When the label `1094/1095` occurs and `air-employee.txt` exists,
its content is one of the accumulated parts. -/
theorem airEmployee_mem_contextParts
    (fs : List Char → Option (List Char)) (labels : List (List Char))
    (c : List Char) (hmem : label10941095 ∈ labels)
    (hfs : fs airEmployeeFile = some c) : c ∈ contextParts fs labels := by
  induction labels with
  | nil => cases hmem
  | cons l rest ih =>
    rw [contextParts]
    rcases hmem with _ | ⟨_, hmem'⟩
    · refine List.mem_append_left _ (List.mem_append_right _ ?_)
      simp [hfs]
    · exact List.mem_append_right _ (ih hmem')

/-- When no label has a matching file (and `air-employee.txt` is absent
whenever `1094/1095` occurs), no part is accumulated. -/
theorem contextParts_eq_nil (fs : List Char → Option (List Char))
    (labels : List (List Char))
    (hnone : ∀ l ∈ labels, fs (txtFile l) = none)
    (hair : label10941095 ∈ labels → fs airEmployeeFile = none) :
    contextParts fs labels = [] := by
  induction labels with
  | nil => rfl
  | cons l rest ih =>
    rw [contextParts]
    rw [hnone l (by simp)]
    rw [ih (fun x hx => hnone x (by simp [hx]))
      (fun hx => hair (by simp [hx]))]
    by_cases hl : l = label10941095
    · simp [hl, hair (by simp [hl])]
    · simp [hl]

-- ---------------------------------------------------------------------
-- Claim C8
-- ---------------------------------------------------------------------

/-- C8: (a) if no label of the list has a matching `<label>.txt` file,
and `air-employee.txt` does not exist whenever the list contains
`1094/1095`, the Context Loader returns the empty string; (b) if the
list contains the literal `1094/1095` and `air-employee.txt` exists,
the returned text contains that file's content as a substring —
independently of whether a file named `1094/1095.txt` exists, since the
file system is universally quantified. -/
theorem load_context_from_labels_spec (labels : List (List Char))
    (fs : List Char → Option (List Char)) :
    ((∀ l ∈ labels, fs (txtFile l) = none) →
      (label10941095 ∈ labels → fs airEmployeeFile = none) →
      load_context_from_labels labels fs = []) ∧
    (∀ c, label10941095 ∈ labels → fs airEmployeeFile = some c →
      containsSub (load_context_from_labels labels fs) c = true) := by
  constructor
  · intro hnone hair
    unfold load_context_from_labels
    rw [contextParts_eq_nil fs labels hnone hair]
    rfl
  · intro c hmem hfs
    rw [containsSub_iff_occurs]
    exact joinSep_occurs_of_mem _ _ _ (airEmployee_mem_contextParts fs labels c hmem hfs)

/-- C8 (witness): the theorem applied at concrete inputs: (a) labels
`["alpha", "beta"]` over an empty file system yield the empty string;
(b) for labels `["1094/1095"]` over a file system holding only
`air-employee.txt` (in particular no `1094/1095.txt`), the result
contains that file's content. -/
theorem load_context_from_labels_spec_witness :
    load_context_from_labels ["alpha".toList, "beta".toList]
      (fun _ => none) = [] ∧
    containsSub
      (load_context_from_labels [label10941095]
        (fun p => if p = airEmployeeFile then some "ACA air data".toList
                  else none))
      "ACA air data".toList = true :=
  ⟨(load_context_from_labels_spec ["alpha".toList, "beta".toList]
      (fun _ => none)).1 (by decide) (by decide),
   (load_context_from_labels_spec [label10941095]
      (fun p => if p = airEmployeeFile then some "ACA air data".toList
                else none)).2 "ACA air data".toList (by decide) (by decide)⟩

-- ---------------------------------------------------------------------
-- src/test_issues.py: the Issue Test Orchestrator (main, lines 243-292)
-- and get_testing_instructions (lines 109-120).
-- ---------------------------------------------------------------------

/-- Python `str.lower()`.  `Char.toLower` lowers exactly the ASCII
range A–Z, matching Python on the ASCII label/comment alphabet this
system uses. -/
def pyLower (l : List Char) : List Char := l.map Char.toLower

/-- A comment as produced by the GraphQL fetch: author login (absent
when the author was deleted), body, creation timestamp. -/
structure CommentRec where
  author : Option (List Char)
  body : List Char
  createdAt : Nat
deriving DecidableEq, Repr

/-- An issue dictionary as produced by `get_project_issues`. -/
structure Issue where
  number : Nat
  node_id : Option (List Char)
  body : List Char
  labels : List (List Char)
  comments : List CommentRec
deriving DecidableEq, Repr

/-- The literal `"@<bot_username> Testing Instructions:"` marker. -/
def testingInstructionsMarker (bot : List Char) : List Char :=
  '@' :: (bot ++ " Testing Instructions:".toList)

/-- `get_testing_instructions` (src/test_issues.py): return the
stripped text after the marker in the first comment whose body contains
`"@<bot> Testing Instructions:"`, or `none` when no comment contains it
or the first containing comment has an empty task. -/
def get_testing_instructions (comments : List CommentRec)
    (bot : List Char) : Option (List Char) :=
  match comments.find?
      (fun c => containsSub c.body (testingInstructionsMarker bot)) with
  | none => none
  | some c =>
    let task := pyStrip (splitAfter c.body (testingInstructionsMarker bot))
    if task = [] then none else some task

/-- Python truthiness of `issue.get("node_id")`: present and
non-empty. -/
def truthyId : Option (List Char) → Bool
  | none => false
  | some s => !s.isEmpty

/-- The issue-selection loop of the Orchestrator's `main`
(src/test_issues.py lines 255-289), parameterised by the bot username
and by which issues the best-effort `add_testing_in_progress_label`
call succeeds on (`labelOk`; a `False` models the raised exception that
makes the loop `continue`).  `count` is `processed_count`; the loop
`break`s once it reaches the maximum of 3.  The returned list contains
the issues for which a QA Agent Runner subprocess task is created, in
order. -/
def mainLaunches (bot : List Char) (labelOk : Issue → Bool) :
    List Issue → Nat → List Issue
  | [], _ => []
  | i :: rest, count =>
    if 3 ≤ count then []
    else if aiTestedLabel ∈ i.labels.map pyLower then
      mainLaunches bot labelOk rest count
    else if testingInProgressLabel ∈ i.labels.map pyLower then
      mainLaunches bot labelOk rest count
    else if get_testing_instructions i.comments bot = none then
      mainLaunches bot labelOk rest count
    else if !truthyId i.node_id then
      mainLaunches bot labelOk rest count
    else if labelOk i then i :: mainLaunches bot labelOk rest (count + 1)
    else mainLaunches bot labelOk rest count

/-- One poll cycle of the Orchestrator: the issues launched by `main`,
starting from `processed_count = 0`. -/
def orchestratorLaunches (issues : List Issue) (bot : List Char)
    (labelOk : Issue → Bool) : List Issue :=
  mainLaunches bot labelOk issues 0

/-- The eligibility filter of one poll cycle, as a predicate: all four
skip conditions pass and the label add succeeds. -/
def eligibleIssue (bot : List Char) (labelOk : Issue → Bool)
    (i : Issue) : Bool :=
  !(aiTestedLabel ∈ i.labels.map pyLower) &&
  !(testingInProgressLabel ∈ i.labels.map pyLower) &&
  !(get_testing_instructions i.comments bot = none) &&
  truthyId i.node_id && labelOk i

-- ---------------------------------------------------------------------
-- Claim C3
-- ---------------------------------------------------------------------

/-- C3: every issue for which the Orchestrator launches a QA Agent
Runner has no `ai-tested` label in any letter case and has at least one
comment containing the `"@<bot> Testing Instructions:"` marker —
equivalently, an issue with such a label, or with no matching comment
(regardless of its body), is never launched. -/
theorem orchestrator_never_launches_spec (issues : List Issue)
    (bot : List Char) (labelOk : Issue → Bool) (i : Issue)
    (hmem : i ∈ orchestratorLaunches issues bot labelOk) :
    aiTestedLabel ∉ i.labels.map pyLower ∧
    ∃ c ∈ i.comments,
      containsSub c.body (testingInstructionsMarker bot) = true := by
  suffices h : ∀ count, i ∈ mainLaunches bot labelOk issues count →
      aiTestedLabel ∉ i.labels.map pyLower ∧
      ∃ c ∈ i.comments,
        containsSub c.body (testingInstructionsMarker bot) = true from
    h 0 hmem
  clear hmem
  induction issues with
  | nil => intro count h; cases h
  | cons j rest ih =>
    intro count h
    rw [mainLaunches] at h
    by_cases h3 : 3 ≤ count
    · rw [if_pos h3] at h; cases h
    rw [if_neg h3] at h
    by_cases hai : aiTestedLabel ∈ j.labels.map pyLower
    · rw [if_pos hai] at h; exact ih count h
    rw [if_neg hai] at h
    by_cases htip : testingInProgressLabel ∈ j.labels.map pyLower
    · rw [if_pos htip] at h; exact ih count h
    rw [if_neg htip] at h
    by_cases hti : get_testing_instructions j.comments bot = none
    · rw [if_pos hti] at h; exact ih count h
    rw [if_neg hti] at h
    by_cases hid : !truthyId j.node_id
    · rw [if_pos hid] at h; exact ih count h
    rw [if_neg hid] at h
    by_cases hok : labelOk j
    · rw [if_pos hok] at h
      rcases h with _ | ⟨_, h'⟩
      · refine ⟨hai, ?_⟩
        unfold get_testing_instructions at hti
        cases hfind : List.find?
            (fun c => containsSub c.body (testingInstructionsMarker bot))
            i.comments with
        | none => rw [hfind] at hti; exact absurd rfl hti
        | some c =>
          have hp := List.find?_some hfind
          have hm := List.mem_of_find?_eq_some hfind
          exact ⟨c, hm, hp⟩
      · exact ih (count + 1) h'
    · rw [if_neg hok] at h; exact ih count h

/-- A concrete issue carrying a valid
`"@Caleb-Hurst Testing Instructions:"` comment. -/
def sampleEligibleIssue : Issue :=
  ⟨7, some "I_node".toList, "body text".toList, ["needs-test".toList],
    [⟨some "alice".toList,
      "@Caleb-Hurst Testing Instructions: test the login flow".toList, 5⟩]⟩

/-- C3 (witness): the concrete issue above is launched, and the
theorem's conclusions hold for it. -/
theorem orchestrator_never_launches_spec_witness :
    sampleEligibleIssue ∈
      orchestratorLaunches [sampleEligibleIssue] "Caleb-Hurst".toList
        (fun _ => true) ∧
    aiTestedLabel ∉ sampleEligibleIssue.labels.map pyLower :=
  ⟨by decide,
   (orchestrator_never_launches_spec [sampleEligibleIssue]
      "Caleb-Hurst".toList (fun _ => true) sampleEligibleIssue
      (by decide)).1⟩

-- ---------------------------------------------------------------------
-- Claim C6
-- ---------------------------------------------------------------------

/-- The launch count never exceeds the remaining budget `3 - count`. -/
theorem mainLaunches_length_le (bot : List Char) (labelOk : Issue → Bool)
    (issues : List Issue) :
    ∀ count, (mainLaunches bot labelOk issues count).length ≤ 3 - count := by
  induction issues with
  | nil => intro count; simp [mainLaunches]
  | cons j rest ih =>
    intro count
    rw [mainLaunches]
    by_cases h3 : 3 ≤ count
    · simp [h3]
    rw [if_neg h3]
    by_cases hai : aiTestedLabel ∈ j.labels.map pyLower
    · rw [if_pos hai]; exact ih count
    rw [if_neg hai]
    by_cases htip : testingInProgressLabel ∈ j.labels.map pyLower
    · rw [if_pos htip]; exact ih count
    rw [if_neg htip]
    by_cases hti : get_testing_instructions j.comments bot = none
    · rw [if_pos hti]; exact ih count
    rw [if_neg hti]
    by_cases hid : !truthyId j.node_id
    · rw [if_pos hid]; exact ih count
    rw [if_neg hid]
    by_cases hok : labelOk j
    · rw [if_pos hok]
      have := ih (count + 1)
      simp only [List.length_cons]
      omega
    · rw [if_neg hok]; exact ih count

/-- C6: in one poll cycle, even with 5 or more eligible issues, at most
3 QA Agent Runner subprocess tasks are created in total; further
eligible issues are not queued. -/
theorem orchestrator_cap_spec (issues : List Issue) (bot : List Char)
    (labelOk : Issue → Bool)
    (_helig : 5 ≤ (issues.filter (eligibleIssue bot labelOk)).length) :
    (orchestratorLaunches issues bot labelOk).length ≤ 3 := by
  have := mainLaunches_length_le bot labelOk issues 0
  simpa [orchestratorLaunches] using this

/-- C6 (witness): five concrete eligible issues in one poll, of which
at most 3 are launched. -/
theorem orchestrator_cap_spec_witness :
    (orchestratorLaunches
      ([1, 2, 3, 4, 5].map (fun n =>
        ⟨n, some "I_node".toList, [], [],
          [⟨some "alice".toList,
            "@Caleb-Hurst Testing Instructions: run test".toList, 5⟩]⟩))
      "Caleb-Hurst".toList (fun _ => true)).length ≤ 3 :=
  orchestrator_cap_spec _ "Caleb-Hurst".toList (fun _ => true) (by decide)

-- ---------------------------------------------------------------------
-- src/context_updater.py, filename sanitization (lines 136-138):
--   safe = re.sub(r'[^\w\-]', '-', feature_name.lower())
--   safe = re.sub(r'-+', '-', safe).strip('-')
-- ---------------------------------------------------------------------

/-- The regex class `\w` (word character) on the ASCII alphabet of the
tested feature names: letter, digit or underscore. -/
def isWordChar (c : Char) : Bool := c.isAlpha || c.isDigit || c = '_'

/-- One character of `re.sub(r'[^\w\-]', '-', s.lower())`: lower-case
(Python `str.lower()`, ASCII range), keep word characters and hyphens,
replace everything else with a hyphen. -/
def slugChar (c : Char) : Char :=
  let d := c.toLower
  if isWordChar d || d = '-' then d else '-'

/-- `re.sub(x+, x, s)`: collapse every run of the character `x` to a
single occurrence. -/
def collapseRuns (x : Char) : List Char → List Char
  | [] => []
  | [c] => [c]
  | c :: d :: rest =>
    if c = x && d = x then collapseRuns x (d :: rest)
    else c :: collapseRuns x (d :: rest)

/-- The feature-name slug of `update_context_file`
(src/context_updater.py): lower-case, replace non-word non-hyphen
characters by hyphens, collapse hyphen runs, strip hyphens from both
ends. -/
def slugify (l : List Char) : List Char :=
  stripEnds (fun c => c = '-') (collapseRuns '-' (l.map slugChar))

theorem toNat_ofNat_valid (n : Nat) (h : n.isValidChar) :
    (Char.ofNat n).toNat = n := by
  rw [Char.ofNat, dif_pos h]
  rfl

theorem toLower_toLower (c : Char) : c.toLower.toLower = c.toLower := by
  unfold Char.toLower
  by_cases h : c.toNat ≥ 65 ∧ c.toNat ≤ 90
  · rw [if_pos h]
    have hv : (c.toNat + 32).isValidChar := Or.inl (by omega)
    rw [toNat_ofNat_valid _ hv]
    rw [if_neg (by omega)]
  · rw [if_neg h, if_neg h]

theorem slugChar_idem (c : Char) : slugChar (slugChar c) = slugChar c := by
  unfold slugChar
  by_cases h : isWordChar c.toLower || c.toLower = '-'
  · simp only [if_pos h, toLower_toLower, if_pos h]
  · simp only [if_neg h]
    decide

theorem mem_collapseRuns (x y : Char) :
    ∀ l, y ∈ collapseRuns x l → y ∈ l := by
  intro l
  induction l with
  | nil => intro h; cases h
  | cons c t ih =>
    cases t with
    | nil => intro h; exact h
    | cons d rest =>
      rw [collapseRuns]
      by_cases hcd : c = x && d = x
      · rw [if_pos hcd]
        intro h; exact List.mem_cons_of_mem c (ih h)
      · rw [if_neg hcd]
        intro h
        rcases h with _ | ⟨_, h'⟩
        · exact List.mem_cons_self _ _
        · exact List.mem_cons_of_mem c (ih h')

theorem head?_collapseRuns (x d : Char) :
    ∀ rest, (collapseRuns x (d :: rest)).head? = some d := by
  intro rest
  induction rest generalizing d with
  | nil => rfl
  | cons e rest' ih =>
    rw [collapseRuns]
    by_cases hde : d = x && e = x
    · rw [if_pos hde]
      rw [ih e]
      have h1 : d = x := by simpa using (Bool.and_elim_left hde)
      have h2 : e = x := by simpa using (Bool.and_elim_right hde)
      rw [h1, h2]
    · rw [if_neg hde]; rfl

/-- `collapseRuns` leaves no adjacent pair of `x`s. -/
theorem chain'_collapseRuns (x : Char) :
    ∀ l, List.Chain' (fun a b => ¬(a = x ∧ b = x)) (collapseRuns x l) := by
  intro l
  induction l with
  | nil => exact List.chain'_nil
  | cons c t ih =>
    cases t with
    | nil => exact List.chain'_singleton c
    | cons d rest =>
      rw [collapseRuns]
      by_cases hcd : c = x && d = x
      · rw [if_pos hcd]; exact ih
      · rw [if_neg hcd]
        rw [List.chain'_cons']
        refine ⟨?_, ih⟩
        intro y hy
        rw [head?_collapseRuns] at hy
        rintro ⟨hc, hy'⟩
        cases hy
        exact hcd (by simp [hc, hy'])

/-- A list with no adjacent pair of `x`s is a fixed point of
`collapseRuns`. -/
theorem collapseRuns_eq_self (x : Char) :
    ∀ l, List.Chain' (fun a b => ¬(a = x ∧ b = x)) l →
      collapseRuns x l = l := by
  intro l
  induction l with
  | nil => intro _; rfl
  | cons c t ih =>
    cases t with
    | nil => intro _; rfl
    | cons d rest =>
      intro hch
      rw [collapseRuns]
      have hR := (List.chain'_cons.mp hch).1
      have hcd : ¬(c = x && d = x) := by
        intro hb
        exact hR ⟨by simpa using Bool.and_elim_left hb,
          by simpa using Bool.and_elim_right hb⟩
      rw [if_neg hcd]
      rw [ih (List.chain'_cons.mp hch).2]

theorem stripEnds_occurs (p : Char → Bool) (l : List Char) :
    stripEnds p l <:+: l := by
  unfold stripEnds
  have h1 : (l.dropWhile p).reverse.dropWhile p <:+ (l.dropWhile p).reverse :=
    List.dropWhile_suffix p
  have h2 := List.reverse_prefix.mpr h1
  rw [List.reverse_reverse] at h2
  exact h2.isInfix.trans (List.dropWhile_suffix p).isInfix

theorem mem_stripEnds (p : Char → Bool) (l : List Char) (y : Char)
    (h : y ∈ stripEnds p l) : y ∈ l :=
  (stripEnds_occurs p l).subset h

theorem stripEnds_head (p : Char → Bool) (l : List Char) :
    ∀ y ∈ (stripEnds p l).head?, p y = false := by
  intro y hy
  unfold stripEnds at hy
  rw [List.head?_reverse] at hy
  obtain ⟨u, hu⟩ :
      (l.dropWhile p).reverse.dropWhile p <:+ (l.dropWhile p).reverse :=
    List.dropWhile_suffix p
  have hBne : (l.dropWhile p).reverse.dropWhile p ≠ [] := by
    intro h0; rw [h0] at hy; cases hy
  have hlast : ((l.dropWhile p).reverse.dropWhile p).getLast? =
      ((l.dropWhile p).reverse).getLast? := by
    conv_rhs => rw [← hu]
    rw [List.getLast?_append_of_ne_nil _ hBne]
  rw [hlast, List.getLast?_reverse] at hy
  have hhd := List.head?_dropWhile_not p l
  rcases hh : (l.dropWhile p).head? with _ | b
  · rw [hh] at hy; cases hy
  · rw [hh] at hhd hy
    cases hy
    exact hhd

theorem stripEnds_last (p : Char → Bool) (l : List Char) :
    ∀ y ∈ (stripEnds p l).getLast?, p y = false := by
  intro y hy
  unfold stripEnds at hy
  rw [List.getLast?_reverse] at hy
  have hhd := List.head?_dropWhile_not p ((l.dropWhile p).reverse)
  rcases hh : ((l.dropWhile p).reverse.dropWhile p).head? with _ | b
  · rw [hh] at hy; cases hy
  · rw [hh] at hhd hy
    cases hy
    exact hhd

theorem dropWhile_eq_self_of_head (p : Char → Bool) (l : List Char)
    (h : ∀ y ∈ l.head?, p y = false) : l.dropWhile p = l := by
  cases l with
  | nil => rfl
  | cons a t =>
    have := h a rfl
    simp [List.dropWhile_cons, this]

theorem stripEnds_eq_self (p : Char → Bool) (l : List Char)
    (hhead : ∀ y ∈ l.head?, p y = false)
    (hlast : ∀ y ∈ l.getLast?, p y = false) : stripEnds p l = l := by
  unfold stripEnds
  rw [dropWhile_eq_self_of_head p l hhead]
  rw [dropWhile_eq_self_of_head p l.reverse
    (by rw [List.head?_reverse]; exact hlast)]
  exact List.reverse_reverse l

theorem map_eq_self_of_mem (f : Char → Char) (l : List Char)
    (h : ∀ y ∈ l, f y = y) : l.map f = l := by
  induction l with
  | nil => rfl
  | cons a t ih =>
    rw [List.map_cons, h a (List.mem_cons_self a t),
      ih (fun y hy => h y (List.mem_cons_of_mem a hy))]

-- ---------------------------------------------------------------------
-- Claim C4
-- ---------------------------------------------------------------------

/-- C4: the slug function used for context filenames is idempotent —
`slugify (slugify x) = slugify x` for **every** string `x` — and maps
each of the five table inputs exactly as the specification states. -/
theorem slugify_spec :
    (∀ l : List Char, slugify (slugify l) = slugify l) ∧
    slugify "User Management".toList = "user-management".toList ∧
    slugify "billing/payment".toList = "billing-payment".toList ∧
    slugify "API & Authentication".toList = "api-authentication".toList ∧
    slugify "file-upload feature!".toList = "file-upload-feature".toList ∧
    slugify "   spaced   ".toList = "spaced".toList := by
  refine ⟨?_, by decide, by decide, by decide, by decide, by decide⟩
  intro l
  have hclean : ∀ y ∈ slugify l, slugChar y = y := by
    intro y hy
    have h1 : y ∈ collapseRuns '-' (l.map slugChar) :=
      mem_stripEnds _ _ y hy
    have h2 : y ∈ l.map slugChar := mem_collapseRuns _ _ _ h1
    obtain ⟨c, _, hc⟩ := List.mem_map.mp h2
    rw [← hc]
    exact slugChar_idem c
  have hchain :
      List.Chain' (fun a b => ¬(a = '-' ∧ b = '-')) (slugify l) :=
    List.Chain'.infix (chain'_collapseRuns '-' (l.map slugChar))
      (stripEnds_occurs _ _)
  have hhead : ∀ y ∈ (slugify l).head?, (y = '-' : Bool) = false :=
    stripEnds_head _ _
  have hlast : ∀ y ∈ (slugify l).getLast?, (y = '-' : Bool) = false :=
    stripEnds_last _ _
  show stripEnds (fun c => c = '-')
      (collapseRuns '-' ((slugify l).map slugChar)) = slugify l
  rw [map_eq_self_of_mem slugChar (slugify l) hclean]
  rw [collapseRuns_eq_self '-' (slugify l) hchain]
  exact stripEnds_eq_self _ _ hhead hlast

-- ---------------------------------------------------------------------
-- src/context_updater.py, generate_context_content (lines 61-100) and
-- update_context_file (lines 117-166).  The OpenAI call itself is an
-- external dependency; what the code determines is WHICH prompt string
-- is sent, so the embedding computes that prompt.
-- ---------------------------------------------------------------------

/-- The create-new-file prompt of `generate_context_content`
(the `else` branch, no existing content). -/
def createPrompt (feature information : List Char) : List Char :=
  "You are helping to create a context file that provides background information for QA testing of a software feature.\n\nI need you to create a new context file for the \"".toList ++
  feature ++
  "\" feature with the following information:\n".toList ++
  information ++
  "\n\nPlease provide a well-structured context file in markdown format. The file should:\n1. Be organized and easy to read\n2. Focus on practical testing guidance and feature understanding  \n3. Include relevant details that would help someone test this feature\n4. Use clear markdown formatting (headers, bullet points, etc.)\n5. Be comprehensive but concise\n\nReturn only the markdown content, no explanations or extra text.".toList

/-- The update-existing-file prompt of `generate_context_content`
(the `if existing_content:` branch). -/
def updatePrompt (feature existing information : List Char) : List Char :=
  "You are helping to maintain context files that provide background information for QA testing of software features.\n\nI have an existing context file for the \"".toList ++
  feature ++
  "\" feature:\n\n---\n".toList ++
  existing ++
  "\n---\n\nI need you to update this file to include the following new information:\n".toList ++
  information ++
  "\n\nPlease provide the complete updated context file in markdown format. The file should:\n1. Maintain all existing valuable information\n2. Integrate the new information naturally\n3. Be well-organized and easy to read\n4. Focus on practical testing guidance and feature understanding\n5. Use clear markdown formatting\n\nReturn only the updated markdown content, no explanations or extra text.".toList

/-- The prompt chosen by `generate_context_content`: Python's
`if existing_content:` is true only for a present, non-empty string. -/
def generate_context_prompt (feature information : List Char)
    (existing : Option (List Char)) : List Char :=
  match existing with
  | some e =>
    if e = [] then createPrompt feature information
    else updatePrompt feature e information
  | none => createPrompt feature information

/-- The context file name `<slug>.txt` used by `update_context_file`. -/
def contextFileName (feature : List Char) : List Char :=
  slugify feature ++ ".txt".toList

/-- The prompt `update_context_file` sends: read the existing file if
present, strip it (`f.read().strip()`), and hand the result to
`generate_context_content`. -/
def update_context_file_prompt (feature information : List Char)
    (fs : List Char → Option (List Char)) : List Char :=
  generate_context_prompt feature information
    ((fs (contextFileName feature)).map pyStrip)

theorem pyStrip_eq_nil_of_all_space (l : List Char)
    (h : ∀ c ∈ l, isPySpace c = true) : pyStrip l = [] := by
  unfold pyStrip stripEnds
  rw [List.dropWhile_eq_nil_iff.mpr h]
  rfl

-- ---------------------------------------------------------------------
-- Claim C9
-- ---------------------------------------------------------------------

/-- C9: in `update_context_file`, an existing context file whose
content is empty or whitespace-only is treated exactly like a missing
file: the trimmed content is falsy, so `generate_context_content`
builds the create-new-file prompt, identical to what it builds when no
file exists at all. -/
theorem update_context_file_blank_spec (feature information content : List Char)
    (fs : List Char → Option (List Char))
    (hread : fs (contextFileName feature) = some content)
    (hblank : ∀ c ∈ content, isPySpace c = true) :
    update_context_file_prompt feature information fs =
      createPrompt feature information ∧
    update_context_file_prompt feature information fs =
      update_context_file_prompt feature information (fun _ => none) := by
  have h1 : update_context_file_prompt feature information fs =
      createPrompt feature information := by
    unfold update_context_file_prompt
    rw [hread]
    simp only [Option.map_some']
    rw [pyStrip_eq_nil_of_all_space content hblank]
    rfl
  exact ⟨h1, h1.trans rfl⟩

/-- C9 (witness): the theorem applied at the concrete feature
`"My Feature"` over a file system where `my-feature.txt` holds only
whitespace. -/
theorem update_context_file_blank_spec_witness :
    update_context_file_prompt "My Feature".toList "use 2FA".toList
        (fun p => if p = "my-feature.txt".toList
                  then some "  \n\t ".toList else none) =
      createPrompt "My Feature".toList "use 2FA".toList :=
  (update_context_file_blank_spec "My Feature".toList "use 2FA".toList
    "  \n\t ".toList
    (fun p => if p = "my-feature.txt".toList
              then some "  \n\t ".toList else none)
    (by decide) (by decide)).1

-- ---------------------------------------------------------------------
-- src/context_updater.py, parse_remember_next_time (lines 20-43):
--   re.search(r'REMEMBER NEXT TIME FOR\s+([^(]+?)\s*\(\s*(.*?)\s*\)',
--             text, re.IGNORECASE | re.DOTALL)
-- The regex is embedded by its (deterministic) match semantics at one
-- start position, derived by backtracking analysis:
--  * the 22-character literal matches case-insensitively;
--  * `\s+` demands the next character be whitespace; since `\s`, the
--    lazy `[^(]+?` and the greedy `\s*` cannot consume `(`, the `\(`
--    consumes the FIRST `(` after the literal, at index g of the
--    remainder, and the nonempty group 1 needs g ≥ 2;
--  * group 1 together with the surrounding `\s+`/`\s*` spans exactly
--    indices [1, g) of the remainder, so after `.strip()` it equals
--    the stripped span;
--  * `(.*?)\s*\)` stops at the FIRST `)` after the `(` (a match fails
--    if none exists); group 2 with the surrounding `\s*`s spans
--    exactly (g, r), so after `.strip()` it equals the stripped span.
-- `re.search` tries start positions left to right.
-- ---------------------------------------------------------------------

/-- The lower-cased pattern literal. -/
def rntLiteral : List Char := "remember next time for".toList

/-- Attempt the regex match anchored at the head of `s`; return the
stripped groups `(feature_name, information)` on success. -/
def tryMatchRNT (s : List Char) : Option (List Char × List Char) :=
  if (s.take 22).map Char.toLower = rntLiteral then
    match (s.drop 22).head? with
    | none => none
    | some c =>
      if isPySpace c then
        match List.findIdx? (fun d => d = '(') (s.drop 22) with
        | none => none
        | some g =>
          if 2 ≤ g then
            match List.findIdx? (fun d => d = ')')
                ((s.drop 22).drop (g + 1)) with
            | none => none
            | some r =>
              some (pyStrip (((s.drop 22).take g).drop 1),
                    pyStrip (((s.drop 22).drop (g + 1)).take r))
          else none
      else none
  else none

/-- `parse_remember_next_time` (src/context_updater.py): first match of
the pattern anywhere in the text, scanning start positions left to
right; `none` when the pattern never matches. -/
def parse_remember_next_time (s : List Char) :
    Option (List Char × List Char) :=
  match s with
  | [] => none
  | c :: t =>
    match tryMatchRNT (c :: t) with
    | some r => some r
    | none => parse_remember_next_time t

theorem findIdx?_first_after (p : Char → Bool) (xs ys : List Char)
    (y : Char) (hxs : ∀ x ∈ xs, p x = false) (hy : p y = true) :
    List.findIdx? p (xs ++ y :: ys) = some xs.length := by
  rw [List.findIdx?_append, List.findIdx?_eq_none_iff.mpr hxs]
  simp [hy]

theorem pyStrip_append_space (xs : List Char) (c : Char)
    (hc : isPySpace c = true) : pyStrip (xs ++ [c]) = pyStrip xs := by
  unfold pyStrip stripEnds
  rw [List.dropWhile_append]
  by_cases hxs : (xs.dropWhile isPySpace).isEmpty
  · rw [if_pos hxs]
    have h2 : List.dropWhile isPySpace xs = [] :=
      List.isEmpty_iff.mp hxs
    rw [h2]
    simp [List.dropWhile_cons, hc]
  · rw [if_neg hxs]
    rw [List.reverse_append]
    simp [List.dropWhile_cons, hc]

-- ---------------------------------------------------------------------
-- Claim C5
-- ---------------------------------------------------------------------

/-- C5 (counterexample): with `feature = "f"` and `info = "a(b)c"` —
which is free of unmatched parentheses — parsing the formatted string
yields `("f", "a(b")`, not `("f", "a(b)c")`: the lazy `(.*?)` stops at
the first closing parenthesis, so the note is NOT captured greedily and
the round trip fails. -/
theorem parse_remember_next_time_lazy_cex :
    parse_remember_next_time "REMEMBER NEXT TIME FOR f (a(b)c)".toList =
      some ("f".toList, "a(b".toList) ∧
    some (("f".toList : List Char), ("a(b".toList : List Char)) ≠
      some ("f".toList, "a(b)c".toList) := by
  refine ⟨by decide, by decide⟩

/-- C5 (amended): for every pair `(feature, info)` where `feature`
contains no `(` and `info` contains no closing parenthesis,
parsing `"REMEMBER NEXT TIME FOR " ++ feature ++ " (" ++ info ++ ")"`
yields exactly `(feature.strip(), info.strip())`; the note is captured
non-greedily, up to the first closing parenthesis. -/
theorem parse_remember_next_time_roundtrip (feature info : List Char)
    (hf : '(' ∉ feature) (hi2 : ')' ∉ info) :
    parse_remember_next_time
      ("REMEMBER NEXT TIME FOR ".toList ++ feature ++ " (".toList ++
        info ++ ")".toList) =
      some (pyStrip feature, pyStrip info) := by
  have hsplit :
      "REMEMBER NEXT TIME FOR ".toList ++ feature ++ " (".toList ++
        info ++ ")".toList =
      "REMEMBER NEXT TIME FOR".toList ++
        ((' ' :: (feature ++ [' '])) ++ ('(' :: (info ++ [')']))) := by
    simp
  have hmatch : tryMatchRNT
      ("REMEMBER NEXT TIME FOR ".toList ++ feature ++ " (".toList ++
        info ++ ")".toList) = some (pyStrip feature, pyStrip info) := by
    rw [hsplit]
    unfold tryMatchRNT
    rw [List.take_left' (by decide), List.drop_left' (by decide)]
    rw [if_pos (by decide)]
    have hhd : ((' ' :: (feature ++ [' '])) ++
        ('(' :: (info ++ [')']))).head? = some ' ' := rfl
    simp only [hhd]
    rw [if_pos (show isPySpace ' ' = true by decide)]
    have hg : List.findIdx? (fun d => d = '(')
        ((' ' :: (feature ++ [' '])) ++ ('(' :: (info ++ [')']))) =
        some (' ' :: (feature ++ [' '])).length := by
      apply findIdx?_first_after
      · intro x hx
        rcases hx with _ | ⟨_, hx'⟩
        · decide
        · rcases List.mem_append.mp hx' with hx'' | hx''
          · simp only [decide_eq_false_iff_not]
            intro h0; rw [h0] at hx''; exact hf hx''
          · rcases hx'' with _ | ⟨_, h0⟩
            · decide
            · cases h0
      · decide
    simp only [hg]
    rw [if_pos (show 2 ≤ (' ' :: (feature ++ [' '])).length by
      simp only [List.length_cons, List.length_append]; omega)]
    have hdrop : ((' ' :: (feature ++ [' '])) ++
        ('(' :: (info ++ [')']))).drop ((' ' :: (feature ++ [' '])).length + 1) =
        info ++ [')'] := by
      rw [show (' ' :: (feature ++ [' '])).length + 1 =
        ((' ' :: (feature ++ [' '])) ++ ['(']).length by simp]
      rw [show (' ' :: (feature ++ [' '])) ++ ('(' :: (info ++ [')'])) =
        ((' ' :: (feature ++ [' '])) ++ ['(']) ++ (info ++ [')']) by simp]
      exact List.drop_left _ _
    rw [hdrop]
    have hr : List.findIdx? (fun d => d = ')') (info ++ [')']) =
        some info.length := by
      rw [show info ++ [')'] = info ++ ')' :: [] from rfl]
      rw [findIdx?_first_after (fun d => d = ')') info [] ')' ?_ (by decide)]
      intro x hx
      simp only [decide_eq_false_iff_not]
      intro h0; rw [h0] at hx; exact hi2 hx
    simp only [hr]
    have htake : ((' ' :: (feature ++ [' '])) ++
        ('(' :: (info ++ [')']))).take (' ' :: (feature ++ [' '])).length =
        ' ' :: (feature ++ [' ']) := List.take_left _ _
    rw [htake]
    have htake2 : (info ++ [')']).take info.length = info :=
      List.take_left _ _
    rw [htake2]
    have hgrp1 : pyStrip ((' ' :: (feature ++ [' '])).drop 1) =
        pyStrip feature := by
      rw [List.drop_one, List.tail_cons]
      exact pyStrip_append_space feature ' ' (by decide)
    rw [hgrp1]
  cases hs : ("REMEMBER NEXT TIME FOR ".toList ++ feature ++
      " (".toList ++ info ++ ")".toList) with
  | nil => rw [hs] at hmatch; rw [tryMatchRNT] at hmatch; simp at hmatch
  | cons c t =>
    rw [hs] at hmatch
    rw [parse_remember_next_time, hmatch]

/-- C5 (witness): the amended round trip at the concrete pair
`("login", " use 2FA ")`. -/
theorem parse_remember_next_time_roundtrip_witness :
    parse_remember_next_time
      ("REMEMBER NEXT TIME FOR ".toList ++ "login".toList ++
        " (".toList ++ " use 2FA ".toList ++ ")".toList) =
      some (pyStrip "login".toList, pyStrip " use 2FA ".toList) :=
  parse_remember_next_time_roundtrip "login".toList " use 2FA ".toList
    (by decide) (by decide)

-- ---------------------------------------------------------------------
-- src/test_issues.py, extract_final_result (lines 45-60):
--  1. re.search(r'Final Result:(.*?)(?=\[?INFO\]?|\[?ERROR\]?|\[?WARNING\]?|\[?DEBUG\]?|$)',
--               output, re.DOTALL)
--     The literal anchors at its first occurrence; the lazy capture
--     stops at the earliest position where a (possibly `[`-prefixed)
--     log token starts, or where `$` matches (end of string, or just
--     before a single trailing newline).  Because `$` always provides
--     a stop, a match exists iff the literal occurs.
--  2. re.sub(r'\x1b\[[0-9;]*m', '', ...)            (ANSI codes)
--  3. re.sub(r'^(\[?\s*(INFO|WARNING|ERROR|DEBUG)\s*\]?)[^\n]*$', '',
--            ..., flags=re.MULTILINE | re.IGNORECASE)
--     At each line start: optional `[`, a whitespace run (which may
--     cross newlines), a case-insensitive token, a greedy whitespace
--     run (which may cross newlines), optional `]`, then the rest of
--     the current line; the whole span is deleted.
--  4. re.sub(r'^Check \./tmp/recordings.*$', '', ..., flags=re.MULTILINE)
--  5. re.sub(r'\n+', '\n', ...) and .strip().
-- The recursive passes take an explicit fuel argument, instantiated
-- with the list length (always sufficient), so they stay structural
-- and evaluate by `decide`.
-- ---------------------------------------------------------------------

def finalResultMarker : List Char := "Final Result:".toList

def noFinalMsg : List Char := "No final result found.".toList

/-- The lookahead `\[?INFO\]?|\[?ERROR\]?|\[?WARNING\]?|\[?DEBUG\]?`
matches at this position (case-sensitive, as in the search regex). -/
def stopsHere (l : List Char) : Bool :=
  ["INFO".toList, "ERROR".toList, "WARNING".toList, "DEBUG".toList].any
    (fun t => t.isPrefixOf l || ('[' :: t).isPrefixOf l)

/-- The lazy capture `(.*?)` up to the lookahead: stop before the first
log token, or where `$` matches — at the end, or before a final
newline. -/
def takeUntilStop : List Char → List Char
  | [] => []
  | c :: t =>
    if stopsHere (c :: t) || (c = '\n' && t.isEmpty) then []
    else c :: takeUntilStop t

/-- A character of the ANSI-parameter class `[0-9;]`. -/
def isAnsiParam (c : Char) : Bool := c.isDigit || c = ';'

/-- Pass 2: delete every `ESC [ params m` escape sequence. -/
def stripAnsiF : Nat → List Char → List Char
  | 0, l => l
  | _, [] => []
  | fuel + 1, c :: t =>
    if c = '\x1b' then
      match t with
      | '[' :: u =>
        match u.dropWhile isAnsiParam with
        | 'm' :: w => stripAnsiF fuel w
        | _ => c :: stripAnsiF fuel t
      | _ => c :: stripAnsiF fuel t
    else c :: stripAnsiF fuel t

/-- Case-insensitive literal prefix: drop `t` from the front of `l` if
it matches ignoring case. -/
def dropPrefixCI (t l : List Char) : Option (List Char) :=
  if (t.map Char.toLower).isPrefixOf (l.map Char.toLower) then
    some (l.drop t.length)
  else none

/-- Drop one of the log-level tokens, case-insensitively. -/
def dropLogTokenCI (l : List Char) : Option (List Char) :=
  match dropPrefixCI "INFO".toList l with
  | some r => some r
  | none =>
  match dropPrefixCI "WARNING".toList l with
  | some r => some r
  | none =>
  match dropPrefixCI "ERROR".toList l with
  | some r => some r
  | none => dropPrefixCI "DEBUG".toList l

/-- One attempt of pass 3's pattern at a line start: optional `[`
(only literally at the first position — `\s*` cannot skip to reach
it), whitespace, token, whitespace (possibly across newlines), optional
`]`, then everything up to the end of the line reached.  Returns the
remainder after the deleted span. -/
def matchLogAt (l : List Char) : Option (List Char) :=
  match dropLogTokenCI
      ((match l with
        | '[' :: t => t
        | _ => l).dropWhile isPySpace) with
  | none => none
  | some l3 =>
    some ((match l3.dropWhile isPySpace with
      | ']' :: t => t
      | l4 => l4).dropWhile (fun c => !(c = '\n')))

/-- Pass 3: at each `^` position (string start or just after a
newline), delete the matched span if the log-line pattern matches;
scanning resumes after the deleted span (at the unconsumed newline). -/
def subLogF : Nat → List Char → Bool → List Char
  | 0, l, _ => l
  | _, [], _ => []
  | fuel + 1, c :: t, atStart =>
    if atStart then
      match matchLogAt (c :: t) with
      | some rest => subLogF fuel rest false
      | none => c :: subLogF fuel t (c = '\n')
    else c :: subLogF fuel t (c = '\n')

/-- Pass 4: at each `^` position, delete a line beginning with the
literal `Check ./tmp/recordings` up to its end of line.  In the match
branch the head character is the `C` of the literal, so dropping from
the tail to the next newline deletes exactly the matched span. -/
def subCheckF : Nat → List Char → Bool → List Char
  | 0, l, _ => l
  | _, [], _ => []
  | fuel + 1, c :: t, atStart =>
    if atStart && "Check ./tmp/recordings".toList.isPrefixOf (c :: t) then
      subCheckF fuel (t.dropWhile (fun d => !(d = '\n'))) false
    else c :: subCheckF fuel t (c = '\n')

/-- `extract_final_result` (src/test_issues.py): capture the text after
the first `Final Result:` marker up to the first log token, clean it
(ANSI codes, log lines, recording hints, newline runs, strip), or
return the fixed message when the marker is absent. -/
def extract_final_result (out : List Char) : List Char :=
  if containsSub out finalResultMarker then
    let cap := takeUntilStop (splitAfter out finalResultMarker)
    let r1 := stripAnsiF cap.length cap
    let r2 := subLogF r1.length r1 true
    let r3 := subCheckF r2.length r2 true
    pyStrip (collapseRuns '\n' r3)
  else noFinalMsg

-- ---------------------------------------------------------------------
-- Claim C7
-- ---------------------------------------------------------------------

/-- C7: `extract_final_result` on
`"Final Result:\n- Login succeeded\n[INFO] done"` returns
`"- Login succeeded"`, and on every input not containing the
`Final Result:` marker it returns the literal
`"No final result found."`. -/
theorem extract_final_result_spec :
    extract_final_result
        "Final Result:\n- Login succeeded\n[INFO] done".toList =
      "- Login succeeded".toList ∧
    ∀ out : List Char, containsSub out finalResultMarker = false →
      extract_final_result out = noFinalMsg := by
  constructor
  · decide
  · intro out h
    unfold extract_final_result
    rw [h]
    simp

/-- C7 (witness): the no-marker branch applied at the concrete input
`"hello world"`. -/
theorem extract_final_result_spec_witness :
    extract_final_result "hello world".toList = noFinalMsg :=
  extract_final_result_spec.2 "hello world".toList (by decide)

end Bernard
